import Mathlib

/-!
Verification development for the leaderboard-aggregation subsystem of the
`unofficial-ravensburger-playhub-api` TypeScript library.

The TypeScript source is shallowly embedded:
* the TTL/LRU cache closure state (`src/ttlCache.ts`, `createTtlCache`) becomes an
  explicit entry list in JS `Map` insertion order, with `get`/`set` as pure
  state-passing functions taking the current time as a parameter (the code reads
  `Date.now()`; both reads inside one `set` call are modelled as a single instant);
* the bounded-concurrency runner (`src/api.ts`, `runWithBoundedConcurrency`)
  is modelled with deterministic per-item operations (`Except`), under the
  serialized schedule in which each pooled worker runs to completion before the
  next starts; in the source the shared `index++` claims every index exactly once
  and each claimed index writes only its own result slot, so every interleaving
  of the workers produces the same results array as this schedule;
* network collaborators (geocoding, paginated event search, standings fetches)
  are passed in as function-typed oracles at exactly their call interfaces;
* JS numbers used as integers become `Int`/`Nat`; JS strings become `String`,
  processed through their character lists so that everything reduces in the kernel.
-/

namespace Playhub

/-- Equality of modelled fallible results is decidable (used to evaluate the
development on concrete inputs). -/
instance {ε α : Type} [DecidableEq ε] [DecidableEq α] : DecidableEq (Except ε α) :=
  fun a b =>
    match a, b with
    | Except.ok x, Except.ok y =>
      if h : x = y then Decidable.isTrue (congrArg Except.ok h)
      else Decidable.isFalse (fun he => h (Except.ok.inj he))
    | Except.error x, Except.error y =>
      if h : x = y then Decidable.isTrue (congrArg Except.error h)
      else Decidable.isFalse (fun he => h (Except.error.inj he))
    | Except.ok _, Except.error _ => Decidable.isFalse (fun he => Except.noConfusion he)
    | Except.error _, Except.ok _ => Decidable.isFalse (fun he => Except.noConfusion he)

/-! ### TTL/LRU cache (`src/ttlCache.ts`, `createTtlCache`) -/

/-- One stored entry of the cache `Map`: key, value, absolute expiry timestamp. -/
structure CacheEntry (T : Type) where
  key : String
  value : T
  expiresAt : Int
deriving DecidableEq, Repr

/-- `pruneExpired`: remove every entry whose expiry lies strictly in the past. -/
def pruneExpired {T : Type} (now : Int) (st : List (CacheEntry T)) : List (CacheEntry T) :=
  st.filter (fun e => ¬ now > e.expiresAt)

/-- `evictLru`: if bounded and at capacity, delete the first (oldest) entry of the map. -/
def evictLru {T : Type} (maxSize : Nat) (st : List (CacheEntry T)) : List (CacheEntry T) :=
  if maxSize = 0 ∨ st.length < maxSize then st else st.drop 1

/-- Fuelled form of the `while (store.size >= maxSize) evictLru();` loop of `set`:
each pass through the loop body removes one entry, so fuel equal to the store size
never runs out. -/
def evictLoop {T : Type} (maxSize : Nat) :
    Nat → List (CacheEntry T) → List (CacheEntry T)
  | 0, st => st
  | fuel + 1, st =>
    if 0 < maxSize ∧ maxSize ≤ st.length then evictLoop maxSize fuel (evictLru maxSize st)
    else st

/-- The `while (store.size >= maxSize) evictLru();` loop of `set`.  The source only
runs this loop when `maxSize > 0`; with `maxSize = 0` the source loop would never
be entered by `set`. -/
def evictWhileFull {T : Type} (maxSize : Nat) (st : List (CacheEntry T)) :
    List (CacheEntry T) :=
  evictLoop maxSize st.length st

/-- JS `Map.set`: replace in place when the key is present, append otherwise. -/
def mapSet {T : Type} (st : List (CacheEntry T)) (k : String) (e : CacheEntry T) :
    List (CacheEntry T) :=
  if st.any (fun x => x.key = k) then st.map (fun x => if x.key = k then e else x)
  else st ++ [e]

/-- JS `Map.delete`: remove the entry with the given key, if present. -/
def mapDelete {T : Type} (st : List (CacheEntry T)) (k : String) : List (CacheEntry T) :=
  st.eraseP (fun x => decide (x.key = k))

/-- The cache `get`: absent and expired keys yield `none` (an expired entry is also
deleted); a live hit under a bounded cache is moved to the end of the map
(recency refresh).  Returns the read result together with the next state. -/
def cacheGet {T : Type} (maxSize : Nat) (now : Int) (k : String)
    (st : List (CacheEntry T)) : Option T × List (CacheEntry T) :=
  match st.find? (fun e => e.key = k) with
  | none => (none, st)
  | some e =>
    if now > e.expiresAt then (none, mapDelete st k)
    else if 0 < maxSize then (some e.value, mapDelete st k ++ [e])
    else (some e.value, st)

/-- The cache `set`: prune expired entries (`pruneExpired()`), then store
`(value, now + ttlMs)`.  `isNew` in the source is the failure of the pruned
store's `has(key)`, i.e. the `any` test below: for a new key a bounded cache
first evicts oldest-first until below capacity (`while (size >= maxSize)
evictLru()`), and the write appends; for an existing key a bounded cache deletes
the key first so that the write re-appends it, while an unbounded cache
overwrites it in place. -/
def cacheSet {T : Type} (maxSize : Nat) (now : Int) (k : String) (v : T) (ttlMs : Int)
    (st : List (CacheEntry T)) : List (CacheEntry T) :=
  let st1 := pruneExpired now st
  if st1.any (fun e => e.key = k) then
    mapSet (if 0 < maxSize then mapDelete st1 k else st1) k ⟨k, v, now + ttlMs⟩
  else
    mapSet (if 0 < maxSize then evictWhileFull maxSize st1 else st1) k ⟨k, v, now + ttlMs⟩

/-- One cache operation, for reasoning about arbitrary operation sequences. -/
inductive CacheOp (T : Type) where
  | get (now : Int) (k : String)
  | set (now : Int) (k : String) (v : T) (ttlMs : Int)

/-- Run a sequence of cache operations from the empty store of a fresh cache. -/
def runCacheOps {T : Type} (maxSize : Nat) (ops : List (CacheOp T)) :
    List (CacheEntry T) :=
  ops.foldl
    (fun st op =>
      match op with
      | CacheOp.get now k => (cacheGet maxSize now k st).2
      | CacheOp.set now k v ttl => cacheSet maxSize now k v ttl st)
    []

/-! ### Bounded-concurrency runner (`src/api.ts`, `runWithBoundedConcurrency`) -/

/-- One pooled worker (fuelled form): repeatedly claim the next unclaimed index and
write that item's result (`none` records a caught per-item failure) into its own
slot.  The shared index only ever grows, so fuel equal to the item count never
runs out. -/
def workerLoop {T R : Type} (items : List T) (op : T → Except Unit R) :
    Nat → Nat → List (Option R) → Nat × List (Option R)
  | 0, idx, results => (idx, results)
  | fuel + 1, idx, results =>
    if h : idx < items.length then
      workerLoop items op fuel (idx + 1)
        (results.set idx (op (items.get ⟨idx, h⟩)).toOption)
    else (idx, results)

/-- `runWithBoundedConcurrency`: results array of the items' length (slots start
unset, i.e. `undefined`), a pool of `min(width, items.length)` workers, overall
result always produced.  Workers are serialized (see the header comment). -/
def runWithBoundedConcurrency {T R : Type} (items : List T) (width : Nat)
    (op : T → Except Unit R) : List (Option R) :=
  let n := items.length
  let final := (List.range (min width n)).foldl
    (fun st _ => workerLoop items op n st.1 st.2) (0, List.replicate n none)
  final.2

/-! ### Data model (shapes of `Event` / `StandingEntry` as used by the source) -/

/-- Store reference carried by an event (`e.store?.name`). -/
structure StoreRef where
  name : Option String
deriving DecidableEq, Repr

/-- One tournament round, as consumed by the standings resolver. -/
structure TournamentRound where
  id : Int
  round_number : Int
  standings_status : Option String
deriving DecidableEq, Repr

/-- One tournament phase: an ordered list of rounds (an absent `rounds` field
behaves like an empty list in the source's `!phase.rounds?.length` guard). -/
structure TournamentPhase where
  rounds : List TournamentRound
deriving DecidableEq, Repr

/-- Event details, restricted to the fields the verified pipeline reads
(an absent `tournament_phases` behaves like an empty list). -/
structure Event where
  id : Int
  name : String
  start_datetime : String
  tournament_phases : List TournamentPhase
  store : Option StoreRef
deriving DecidableEq, Repr

/-- The `player` object of a standing entry. -/
structure PlayerRef where
  id : Option Int
  best_identifier : Option String
deriving DecidableEq, Repr

/-- The `user_event_status` object of a standing entry. -/
structure UserEventStatus where
  best_identifier : Option String
deriving DecidableEq, Repr

/-- One player's standing within one round, restricted to the fields the
aggregator reads; `none` models an absent (or `null`) field. -/
structure StandingEntry where
  player : Option PlayerRef
  user_event_status : Option UserEventStatus
  player_name : Option String
  display_name : Option String
  username : Option String
  rank : Option Int
  placement : Option Int
  wins : Option Int
  losses : Option Int
  record : Option String
  match_record : Option String
deriving DecidableEq, Repr

/-- Aggregated cross-event player statistics (`PlayerStats`). -/
structure PlayerStats where
  playerName : String
  totalWins : Int
  totalLosses : Int
  eventsPlayed : Nat
  bestPlacement : Int
  firstPlaceFinishes : Nat
  placements : List Int
deriving DecidableEq, Repr

/-- The four leaderboard sort keys. -/
inductive LeaderboardSortBy where
  | total_wins
  | events_played
  | win_rate
  | best_placement
deriving DecidableEq, Repr

/-! ### String helpers modelling the JS primitives the source applies -/

/-- JS `String.prototype.trim` on a character list (ASCII whitespace suffices for
the record strings this code consumes). -/
def trimChars (cs : List Char) : List Char :=
  ((cs.dropWhile Char.isWhitespace).reverse.dropWhile Char.isWhitespace).reverse

/-- JS `str.split("-")` on a character list. -/
def splitDash : List Char → List (List Char)
  | [] => [[]]
  | c :: rest =>
    match splitDash rest with
    | [] => [[c]]
    | s :: ss => if c = '-' then [] :: s :: ss else (c :: s) :: ss

/-- Value of a non-empty leading run of decimal digits, `none` when there is none. -/
def digitsPrefixValue (cs : List Char) : Option Nat :=
  let ds := cs.takeWhile Char.isDigit
  if ds.isEmpty then none
  else some (ds.foldl (fun n c => 10 * n + (c.toNat - '0'.toNat)) 0)

/-- JS `parseInt(s, 10)` on an already-trimmed character list: an optional sign
followed by a longest digit prefix; `none` models `NaN`. -/
def jsParseInt : List Char → Option Int
  | '-' :: rest => (digitsPrefixValue rest).map (fun n => -(n : Int))
  | '+' :: rest => (digitsPrefixValue rest).map (fun n => (n : Int))
  | cs => (digitsPrefixValue cs).map (fun n => (n : Int))

/-- ASCII lowering, modelling JS `toLowerCase` on the ASCII status strings. -/
def lowerString (s : String) : String :=
  String.mk (s.data.map Char.toLower)

/-- JS truthiness of an optional string (`undefined`/`null`/`""` are falsy). -/
def jsTruthyStr (s : Option String) : Bool :=
  match s with
  | none => false
  | some str => ¬ str = ""

/-- JS `str.slice(0, n)`. -/
def strTake (s : String) (n : Nat) : String :=
  String.mk (s.data.take n)

/-! ### Record parsing and per-entry readers (`src/ttlCache.ts` internals) -/

/-- `parseRecordToWinsLosses`: `"W-L"` to a wins/losses pair, `(0, 0)` when the
record is absent, blank, or its first two dash-separated parts are not numeric. -/
def parseRecordToWinsLosses (record : Option String) : Int × Int :=
  match record with
  | none => (0, 0)
  | some s =>
    if (trimChars s.data).isEmpty then (0, 0)
    else
      let parts := (splitDash s.data).map (fun p => jsParseInt (trimChars p))
      match parts with
      | p0 :: p1 :: _ =>
        match p0, p1 with
        | some w, some l => (w, l)
        | _, _ => (0, 0)
      | _ => (0, 0)

/-- `standingPlayerKey`: stable aggregation key, preferring the numeric player id
over the chain of display handles, with `"—"` as the unattributable sentinel. -/
def standingPlayerKey (entry : StandingEntry) : String :=
  match entry.player.bind (fun p => p.id) with
  | some i => "player_id:" ++ toString i
  | none =>
    ((((entry.player.bind (fun p => p.best_identifier)).or entry.player_name).or
      entry.display_name).or entry.username).getD "—"

/-- `standingPlayerDisplayName`: display handle preference chain, starting with the
per-event-status handle. -/
def standingPlayerDisplayName (entry : StandingEntry) : String :=
  (((((entry.user_event_status.bind (fun u => u.best_identifier)).or
      (entry.player.bind (fun p => p.best_identifier))).or entry.player_name).or
      entry.display_name).or entry.username).getD "—"

/-- `standingPlacement`: explicit rank, else explicit placement, else the
zero-based list position plus 1. -/
def standingPlacement (entry : StandingEntry) (index : Nat) : Int :=
  ((entry.rank.or entry.placement).getD ((index : Int) + 1))

/-- `standingWinsLosses`: explicit integer wins/losses when both are present,
otherwise parse the `record`/`match_record` string. -/
def standingWinsLosses (entry : StandingEntry) : Int × Int :=
  match entry.wins, entry.losses with
  | some w, some l => (w, l)
  | _, _ => parseRecordToWinsLosses (entry.record.or entry.match_record)

/-! ### Aggregation (`src/ttlCache.ts`, `aggregateStandingsToPlayers` / `sortPlayers`) -/

/-- The per-key accumulator record of the aggregation `Map`. -/
structure AggRec where
  displayName : String
  hasUserEventStatus : Bool
  wins : Int
  losses : Int
  eventsPlayed : Nat
  placements : List Int
deriving DecidableEq, Repr

/-- Lookup in the aggregation map, modelled as an association list in JS `Map`
insertion order. -/
def lookupRec (m : List (String × AggRec)) (k : String) : Option AggRec :=
  (m.find? (fun p => p.1 = k)).map (fun p => p.2)

/-- Replace the record stored under a key, keeping its position. -/
def replaceRec (m : List (String × AggRec)) (k : String) (r : AggRec) :
    List (String × AggRec) :=
  m.map (fun p => if p.1 = k then (k, r) else p)

/-- Index of an entry within its event's standings paired with the entry itself:
the unit of work of the aggregation's inner loop. -/
abbrev Contrib := Nat × StandingEntry

/-- Displayed handle of a contribution. -/
def contribName (c : Contrib) : String := standingPlayerDisplayName c.2

/-- Whether a contribution carries a per-event-status handle
(`entry.user_event_status?.best_identifier !== undefined`). -/
def contribUES (c : Contrib) : Bool :=
  (c.2.user_event_status.bind (fun u => u.best_identifier)).isSome

/-- Wins of a contribution. -/
def contribW (c : Contrib) : Int := (standingWinsLosses c.2).1

/-- Losses of a contribution. -/
def contribL (c : Contrib) : Int := (standingWinsLosses c.2).2

/-- Placement of a contribution. -/
def contribPl (c : Contrib) : Int := standingPlacement c.2 c.1

/-- The unconditional `rec.wins += …; rec.losses += …; rec.eventsPlayed += 1;
rec.placements.push(…)` tail of the aggregation loop body. -/
def accumRec (r : AggRec) (c : Contrib) : AggRec :=
  { r with
    wins := r.wins + contribW c
    losses := r.losses + contribL c
    eventsPlayed := r.eventsPlayed + 1
    placements := r.placements ++ [contribPl c] }

/-- Apply one contribution to a (possibly absent) accumulator record: a fresh record
starts from the entry's handle and zero counters; an existing record switches to the
per-event-status handle when it sees one for the first time; then wins, losses,
events played, and the placement list are accumulated. -/
def bumpRec (r? : Option AggRec) (c : Contrib) : AggRec :=
  match r? with
  | none =>
    accumRec
      { displayName := contribName c
        hasUserEventStatus := contribUES c
        wins := 0
        losses := 0
        eventsPlayed := 0
        placements := [] } c
  | some r0 =>
    if contribUES c = true ∧ r0.hasUserEventStatus = false then
      accumRec { r0 with displayName := contribName c, hasUserEventStatus := true } c
    else accumRec r0 c

/-- One step of the aggregation loop: entries whose key resolves to the `"—"`
sentinel are skipped; otherwise the record under the entry's key is created
(appended) or updated in place. -/
def aggStep (m : List (String × AggRec)) (c : Contrib) : List (String × AggRec) :=
  let key := standingPlayerKey c.2
  if key = "—" then m
  else
    match lookupRec m key with
    | none => m ++ [(key, bumpRec none c)]
    | some r => replaceRec m key (bumpRec (some r) c)

/-- The aggregation map after the double loop over events and their standings. -/
def aggMap (eventStandings : List (Event × List StandingEntry)) :
    List (String × AggRec) :=
  eventStandings.foldl (fun m p => p.2.enum.foldl aggStep m) []

/-- `Math.min(...placements)` on the (always non-empty) placement list of an
aggregated record; the `[]` case is unreachable because a record is only created
together with its first placement. -/
def listMin : List Int → Int
  | [] => 0
  | h :: t => t.foldl min h

/-- Turn an accumulator record into the published `PlayerStats`. -/
def toPlayerStats (r : AggRec) : PlayerStats :=
  { playerName := r.displayName
    totalWins := r.wins
    totalLosses := r.losses
    eventsPlayed := r.eventsPlayed
    bestPlacement := listMin r.placements
    firstPlaceFinishes := (r.placements.filter (fun p => p = 1)).length
    placements := r.placements }

/-- Win rate used by the `win_rate` comparator, as an exact rational (the source
divides JS doubles; the claims verified here never exercise this branch). -/
def winRate (a : PlayerStats) : ℚ :=
  if 0 < a.totalWins + a.totalLosses then
    (a.totalWins : ℚ) / ((a.totalWins : ℚ) + (a.totalLosses : ℚ))
  else 0

/-- `sortPlayers` comparator for `total_wins`, as the relation
"`a` sorts before or ties with `b`" (comparator value ≤ 0). -/
def twLE (a b : PlayerStats) : Prop :=
  b.totalWins < a.totalWins ∨ (b.totalWins = a.totalWins ∧
    (a.totalLosses < b.totalLosses ∨ (a.totalLosses = b.totalLosses ∧
      a.bestPlacement ≤ b.bestPlacement)))

/-- `sortPlayers` comparator for `events_played`. -/
def epLE (a b : PlayerStats) : Prop :=
  b.eventsPlayed < a.eventsPlayed ∨ (b.eventsPlayed = a.eventsPlayed ∧ twLE a b)

/-- `sortPlayers` comparator for `win_rate`. -/
def wrLE (a b : PlayerStats) : Prop :=
  winRate b < winRate a ∨ (winRate b = winRate a ∧ twLE a b)

/-- `sortPlayers` comparator for `best_placement`. -/
def bpLE (a b : PlayerStats) : Prop :=
  a.bestPlacement < b.bestPlacement ∨ (a.bestPlacement = b.bestPlacement ∧
    (b.totalWins < a.totalWins ∨ (b.totalWins = a.totalWins ∧
      (a.totalLosses < b.totalLosses ∨ a.totalLosses = b.totalLosses))))

instance : DecidableRel twLE := fun a b => by
  unfold twLE; exact inferInstance

instance : DecidableRel epLE := fun a b => by
  unfold epLE twLE; exact inferInstance

instance : DecidableRel wrLE := fun a b => by
  unfold wrLE twLE; exact inferInstance

instance : DecidableRel bpLE := fun a b => by
  unfold bpLE; exact inferInstance

/-- `sortPlayers`: stable sort of a copy of the player list by the requested key
(the JS engine's `Array.prototype.sort` is stable; we model it by insertion sort
with the matching "sorts before or ties with" relation). -/
def sortPlayers (players : List PlayerStats) (sortBy : LeaderboardSortBy) :
    List PlayerStats :=
  match sortBy with
  | LeaderboardSortBy.total_wins => players.insertionSort twLE
  | LeaderboardSortBy.events_played => players.insertionSort epLE
  | LeaderboardSortBy.win_rate => players.insertionSort wrLE
  | LeaderboardSortBy.best_placement => players.insertionSort bpLE

/-- `aggregateStandingsToPlayers`: accumulate per-player records over every event's
standings, keep players with at least `minEvents` events, derive the published
statistics, sort by the requested key, and truncate to `limit`. -/
def aggregateStandingsToPlayers (eventStandings : List (Event × List StandingEntry))
    (minEvents : Nat) (sortBy : LeaderboardSortBy) (limit : Nat) : List PlayerStats :=
  let players := (((aggMap eventStandings).map (fun p => p.2)).filter
    (fun r => minEvents ≤ r.eventsPlayed)).map toPlayerStats
  (sortPlayers players sortBy).take limit

/-! ### Event standings resolver (`src/api.ts`, `getEventStandings`) -/

/-- One flattened round candidate: round id and number plus the index of the phase
it came from. -/
structure FlatRound where
  id : Int
  round_number : Int
  phase_index : Nat
  standings_status : Option String
deriving DecidableEq, Repr

/-- `roundStandingsPriority`: 0 for final standings statuses, 2 for provisional
ones, 1 otherwise (including an absent or empty status). -/
def roundStandingsPriority (standingsStatus : Option String) : Nat :=
  match standingsStatus with
  | none => 1
  | some str =>
    if str = "" then 1
    else
      let s := lowerString str
      if s = "completed" ∨ s = "final" ∨ s = "published" ∨ s = "closed" then 0
      else if s = "pending" ∨ s = "in_progress" ∨ s = "in progress" then 2
      else 1

/-- Flatten all rounds across all phases, retaining each round's phase index. -/
def flattenRounds (phases : List TournamentPhase) : List FlatRound :=
  phases.enum.flatMap (fun pp =>
    pp.2.rounds.map (fun r =>
      { id := r.id
        round_number := r.round_number
        phase_index := pp.1
        standings_status := r.standings_status }))

/-- "`a` sorts before or ties with `b`" for the round comparator: ascending
standings priority, then descending phase index, then descending round number. -/
def roundLE (a b : FlatRound) : Prop :=
  roundStandingsPriority a.standings_status < roundStandingsPriority b.standings_status ∨
    (roundStandingsPriority a.standings_status = roundStandingsPriority b.standings_status ∧
      (b.phase_index < a.phase_index ∨
        (a.phase_index = b.phase_index ∧ b.round_number ≤ a.round_number)))

instance : DecidableRel roundLE := fun a b => by
  unfold roundLE; exact inferInstance

instance : IsTotal FlatRound roundLE :=
  ⟨fun a b => by unfold roundLE; omega⟩

instance : IsTrans FlatRound roundLE :=
  ⟨fun a b c hab hbc => by
    unfold roundLE at hab hbc ⊢; omega⟩

/-- The `for … try/catch` walk of `getEventStandings`: fetch page 1 of each round's
standings in order, swallow fetch failures, stop at the first non-empty result. -/
def tryRoundsInOrder (fetch : Int → Except Unit (List StandingEntry)) (event : Event) :
    List FlatRound → Option (Event × List StandingEntry)
  | [] => none
  | r :: rest =>
    match fetch r.id with
    | Except.error _ => tryRoundsInOrder fetch event rest
    | Except.ok res =>
      if res.isEmpty then tryRoundsInOrder fetch event rest
      else some (event, res)

/-- `getEventStandings` over fetched event details and a per-round page-1 standings
oracle (the oracle stands for `fetchTournamentRoundStandings(round.id, 1, pageSize)`,
whose failures the source swallows): `null` when the event has no tournament phases,
otherwise the walk over the comparator-sorted flattened rounds. -/
def getEventStandings (event : Event)
    (fetch : Int → Except Unit (List StandingEntry)) :
    Option (Event × List StandingEntry) :=
  if event.tournament_phases.isEmpty then none
  else
    tryRoundsInOrder fetch event
      ((flattenRounds event.tournament_phases).insertionSort roundLE)

/-- Written from the spec's words: walk a candidate list, fetch each round's page-1
standings swallowing failures, and return `{event, standings}` for the first round
yielding at least one result, `null` when none does. -/
def specResolveStandings (fetch : Int → Except Unit (List StandingEntry))
    (event : Event) (rs : List FlatRound) : Option (Event × List StandingEntry) :=
  rs.findSome? (fun r =>
    match fetch r.id with
    | Except.error _ => none
    | Except.ok res => if res.isEmpty then none else some (event, res))

/-! ### Date-range validation (`src/ttlCache.ts`, `validateDateRange`)

`validateDateRange` builds `new Date(startDate + "T00:00:00Z")` and
`new Date(endDate + "T23:59:59Z")`.  We model the ECMAScript date-time-string
parse for this profile: the prefix must be an ISO `YYYY-MM-DD` calendar date
(four digit year, two digit month `01`–`12`, two digit day valid for that month);
anything else is an invalid date (`NaN`).  Timestamps are modelled exactly, as
integer milliseconds from an arbitrary day-zero epoch: only comparisons and
differences of the two constructed timestamps are ever used. -/

/-- Proleptic Gregorian leap-year test. -/
def isLeapYear (y : Nat) : Bool :=
  y % 4 = 0 ∧ (y % 100 ≠ 0 ∨ y % 400 = 0)

/-- Days in a month of a year. -/
def daysInMonth (y m : Nat) : Nat :=
  if m = 1 ∨ m = 3 ∨ m = 5 ∨ m = 7 ∨ m = 8 ∨ m = 10 ∨ m = 12 then 31
  else if m = 2 then (if isLeapYear y then 29 else 28)
  else 30

/-- Days in the months strictly before month `m` of year `y`. -/
def daysBeforeMonth (y m : Nat) : Nat :=
  (match m with
  | 1 => 0
  | 2 => 31
  | 3 => 59
  | 4 => 90
  | 5 => 120
  | 6 => 151
  | 7 => 181
  | 8 => 212
  | 9 => 243
  | 10 => 273
  | 11 => 304
  | _ => 334) + (if 3 ≤ m ∧ isLeapYear y then 1 else 0)

/-- Count of leap years strictly below `y` (year 0 is a leap year). -/
def leapYearsBefore (y : Nat) : Nat :=
  (y + 3) / 4 - (y + 99) / 100 + (y + 399) / 400

/-- Serial day number of a calendar date, counted from year 0, January 1. -/
def dayNumber (y m d : Nat) : Nat :=
  365 * y + leapYearsBefore y + daysBeforeMonth y m + (d - 1)

/-- A parsed calendar date. -/
structure CalendarDate where
  year : Nat
  month : Nat
  day : Nat
deriving DecidableEq, Repr

/-- Whether a character list is a non-empty run of decimal digits of the given
length, and its value. -/
def fixedDigits (cs : List Char) (len : Nat) : Option Nat :=
  if cs.length = len ∧ cs.all Char.isDigit then
    some (cs.foldl (fun n c => 10 * n + (c.toNat - '0'.toNat)) 0)
  else none

/-- Parse `YYYY-MM-DD` into a valid calendar date; `none` models an invalid
`Date` (`NaN` timestamp). -/
def parseYMD (s : String) : Option CalendarDate :=
  match splitDash s.data with
  | [ys, ms, ds] =>
    match fixedDigits ys 4, fixedDigits ms 2, fixedDigits ds 2 with
    | some y, some m, some d =>
      if 1 ≤ m ∧ m ≤ 12 ∧ 1 ≤ d ∧ d ≤ daysInMonth y m then
        some { year := y, month := m, day := d }
      else none
    | _, _, _ => none
  | _ => none

/-- Millisecond timestamp of a date at `T00:00:00Z` (epoch at day zero). -/
def msAtStartOfDay (c : CalendarDate) : Int :=
  (dayNumber c.year c.month c.day : Int) * 86400000

/-- Millisecond timestamp of a date at `T23:59:59Z`. -/
def msAtEndOfDay (c : CalendarDate) : Int :=
  msAtStartOfDay c + 86399000

/-- `Math.round(x / 86400000)` for a non-negative integer count of milliseconds
(86400000 is even, so half-up rounding is `(x + 43200000) / 86400000`). -/
def roundDivDay (x : Int) : Int :=
  (x + 43200000) / 86400000

/-- `MAX_LEADERBOARD_DATE_RANGE_DAYS`. -/
def MAX_LEADERBOARD_DATE_RANGE_DAYS : Int := 366

/-- `MAX_LEADERBOARD_RADIUS_MILES`. -/
def MAX_LEADERBOARD_RADIUS_MILES : Int := 100

/-- `MAX_LEADERBOARD_LIMIT`. -/
def MAX_LEADERBOARD_LIMIT : Int := 100

/-- `validateDateRange`, following the source line by line: parse both dates
(invalid parse → error), reject a start instant after the end instant, then
reject a rounded millisecond day span above the maximum; `none` means the pair
passed validation.  It is a pure function: no upstream call is involved. -/
def validateDateRange (startDate endDate : String) : Option String :=
  match parseYMD startDate, parseYMD endDate with
  | some s, some e =>
    if msAtStartOfDay s > msAtEndOfDay e then
      some "start_date must be on or before end_date."
    else if roundDivDay (msAtEndOfDay e - msAtStartOfDay s) >
        MAX_LEADERBOARD_DATE_RANGE_DAYS then
      some "Date range cannot exceed 366 days (about 1 year)."
    else none
  | _, _ => some "Dates must be valid YYYY-MM-DD."

/-- Written from the spec's words: both dates must parse as valid calendar dates,
start must not be after end as calendar dates, and the inclusive day span must
not exceed the configured maximum of 366 days. -/
def specValidateDateRange (startDate endDate : String) : Option String :=
  match parseYMD startDate, parseYMD endDate with
  | some s, some e =>
    let startDay : Int := dayNumber s.year s.month s.day
    let endDay : Int := dayNumber e.year e.month e.day
    if startDay > endDay then some "start_date must be on or before end_date."
    else if endDay - startDay + 1 > MAX_LEADERBOARD_DATE_RANGE_DAYS then
      some "Date range cannot exceed 366 days (about 1 year)."
    else none
  | _, _ => some "Dates must be valid YYYY-MM-DD."

/-! ### Leaderboard entry points (`src/ttlCache.ts`,
`getPlayerLeaderboardByCity` / `getPlayerLeaderboardByStore`)

The network collaborators appear at exactly their call interfaces:
`geocode` for `geocodeCity(city)`, `search` for the already-parameterized
`searchEventsByCoords` / `searchEventsByStore` call as a function of the page
number, and `standings` for the swallowed-error event-standings resolution of
`fetchAllEventStandings`'s worker.  The unbounded `while (hasMore)` pagination
loop is modelled with a fuel parameter; an overall result of `none` means the
loop was still running when the fuel ran out, and every claim proved below is
about runs in which discovery completes. -/

/-- Geocoding result (`{lat, lon, display_name}`); coordinates are opaque here. -/
structure Geo where
  lat : Int
  lon : Int
  display_name : String
deriving DecidableEq, Repr

/-- One page returned by the event search. -/
structure SearchPage where
  events : List Event
  total : Nat
deriving DecidableEq, Repr

/-- The `(id, name, start_datetime)` triple the pagination loops accumulate. -/
structure EventSummary where
  id : Int
  name : String
  start_datetime : String
deriving DecidableEq, Repr

/-- The contributing-event echo of the result. -/
structure IncludedEvent where
  id : Int
  name : String
  startDate : String
deriving DecidableEq, Repr

/-- The success payload of both leaderboard entry points (`filtersLabel` carries
the resolved `city` / `store` filter echo). -/
structure LeaderboardResult where
  players : List PlayerStats
  eventsAnalyzed : Nat
  eventsIncluded : List IncludedEvent
  dateRangeStart : String
  dateRangeEnd : String
  filtersLabel : String
  filtersMinRounds : Option Nat
deriving DecidableEq, Repr

/-- The city pagination loop: accumulate `(id, name, start_datetime)` triples,
continue while the page was full (100 events) and the reported total exceeds the
accumulated count; an upstream error is returned for the whole operation. -/
def collectEventsCity (search : Nat → Except String SearchPage) :
    Nat → Nat → List EventSummary → Option (Except String (List EventSummary))
  | 0, _, _ => none
  | fuel + 1, page, acc =>
    match search page with
    | Except.error e => some (Except.error e)
    | Except.ok res =>
      let acc2 := acc ++ res.events.map (fun e =>
        { id := e.id, name := e.name, start_datetime := e.start_datetime })
      if res.events.length = 100 ∧ res.total > acc2.length then
        collectEventsCity search fuel (page + 1) acc2
      else some (Except.ok acc2)

/-- The store pagination loop: like the city loop, but additionally resolves the
store label from the first event carrying a truthy store name. -/
def collectEventsStore (search : Nat → Except String SearchPage) :
    Nat → Nat → List EventSummary → Option String →
      Option (Except String (List EventSummary × Option String))
  | 0, _, _, _ => none
  | fuel + 1, page, acc, label =>
    match search page with
    | Except.error e => some (Except.error e)
    | Except.ok res =>
      let acc2 := acc ++ res.events.map (fun e =>
        { id := e.id, name := e.name, start_datetime := e.start_datetime })
      let label2 := res.events.foldl
        (fun lab e =>
          if lab.isNone ∧ jsTruthyStr (e.store.bind (fun st => st.name)) = true then
            e.store.bind (fun st => st.name)
          else lab)
        label
      if res.events.length = 100 ∧ res.total > acc2.length then
        collectEventsStore search fuel (page + 1) acc2 label2
      else some (Except.ok (acc2, label2))

/-- `fetchAllEventStandings`: fan the per-event standings resolution out through
the bounded-concurrency runner (width 8) and keep the non-null, non-undefined
results in input order.  The per-event `try { … } catch { return null }` wrapper
makes each item total, so the oracle returns an `Option` directly. -/
def fetchAllEventStandings (standings : Int → Option (Event × List StandingEntry))
    (eventIds : List Int) : List (Event × List StandingEntry) :=
  let raw := runWithBoundedConcurrency eventIds 8
    (fun eventId => (Except.ok (standings eventId) :
      Except Unit (Option (Event × List StandingEntry))))
  raw.foldr
    (fun one acc =>
      match one with
      | some (some p) => p :: acc
      | _ => acc)
    []

/-- `filterByMinRounds`: with a truthy `minRounds`, keep only events whose round
count summed across phases reaches the threshold. -/
def filterByMinRounds (eventStandings : List (Event × List StandingEntry))
    (minRounds : Option Nat) : List (Event × List StandingEntry) :=
  if minRounds.getD 0 = 0 then eventStandings
  else
    eventStandings.filter (fun p =>
      minRounds.getD 0 ≤
        (p.1.tournament_phases.map (fun ph => ph.rounds.length)).sum)

/-- Parameters of `getPlayerLeaderboardByCity`; `none` models an omitted optional. -/
structure CityParams where
  city : String
  startDate : String
  endDate : String
  radiusMiles : Option Int
  limit : Option Int
  minEvents : Option Nat
  minRounds : Option Nat
  sortBy : Option LeaderboardSortBy

/-- Parameters of `getPlayerLeaderboardByStore`. -/
structure StoreParams where
  storeId : Int
  storeLabel : Option String
  startDate : String
  endDate : String
  limit : Option Int
  minEvents : Option Nat
  minRounds : Option Nat
  sortBy : Option LeaderboardSortBy

/-- Shared tail of both entry points: resolve standings for the discovered events,
apply the `minRounds` filter, aggregate, and assemble the success payload. -/
def leaderboardFromEvents (standings : Int → Option (Event × List StandingEntry))
    (allEvents : List EventSummary) (minEventsCap : Nat)
    (sortBy : LeaderboardSortBy) (limitCap : Nat) (minRounds : Option Nat)
    (startDate endDate : String) (filtersLabel : String) : LeaderboardResult :=
  let eventStandings := fetchAllEventStandings standings (allEvents.map (fun e => e.id))
  let filteredStandings := filterByMinRounds eventStandings minRounds
  let players := aggregateStandingsToPlayers filteredStandings minEventsCap sortBy limitCap
  { players := players
    eventsAnalyzed := filteredStandings.length
    eventsIncluded := filteredStandings.map (fun p =>
      { id := p.1.id, name := p.1.name, startDate := strTake p.1.start_datetime 10 })
    dateRangeStart := startDate
    dateRangeEnd := endDate
    filtersLabel := filtersLabel
    filtersMinRounds := if minRounds.getD 0 = 0 then none else minRounds }

/-- `getPlayerLeaderboardByCity`: validate the dates, geocode the city, page
through all matching events, fail with a descriptive error when none are found,
otherwise aggregate.  `none` = the pagination loop outran the fuel. -/
def getPlayerLeaderboardByCity (params : CityParams)
    (geocode : String → Option Geo) (search : Nat → Except String SearchPage)
    (standings : Int → Option (Event × List StandingEntry)) (fuel : Nat) :
    Option (Except String LeaderboardResult) :=
  match validateDateRange params.startDate params.endDate with
  | some dateError => some (Except.error dateError)
  | none =>
    let limitCap := min MAX_LEADERBOARD_LIMIT (max 1 (params.limit.getD 20))
    let minEventsCap := max 1 (params.minEvents.getD 1)
    match geocode params.city with
    | none => some (Except.error ("Could not find location: " ++ params.city))
    | some geo =>
      match collectEventsCity search fuel 1 [] with
      | none => none
      | some (Except.error e) => some (Except.error e)
      | some (Except.ok allEvents) =>
        if allEvents.isEmpty then
          some (Except.error
            ("No past or in-progress events found near " ++ geo.display_name ++
              " for " ++ params.startDate ++ " – " ++ params.endDate ++
              ". Try a larger radius or different dates."))
        else
          some (Except.ok (leaderboardFromEvents standings allEvents minEventsCap
            (params.sortBy.getD LeaderboardSortBy.total_wins) limitCap.toNat
            params.minRounds params.startDate params.endDate geo.display_name))

/-- `getPlayerLeaderboardByStore`: like the city variant, with the store label
resolved during pagination and no geocoding step. -/
def getPlayerLeaderboardByStore (params : StoreParams)
    (search : Nat → Except String SearchPage)
    (standings : Int → Option (Event × List StandingEntry)) (fuel : Nat) :
    Option (Except String LeaderboardResult) :=
  match validateDateRange params.startDate params.endDate with
  | some dateError => some (Except.error dateError)
  | none =>
    let limitCap := min MAX_LEADERBOARD_LIMIT (max 1 (params.limit.getD 20))
    let minEventsCap := max 1 (params.minEvents.getD 1)
    match collectEventsStore search fuel 1 [] params.storeLabel with
    | none => none
    | some (Except.error e) => some (Except.error e)
    | some (Except.ok (allEvents, resolvedLabel)) =>
      if allEvents.isEmpty then
        some (Except.error
          ("No past or in-progress events found at store " ++ toString params.storeId ++
            " for " ++ params.startDate ++ " – " ++ params.endDate ++
            ". Try different dates."))
      else
        some (Except.ok (leaderboardFromEvents standings allEvents minEventsCap
          (params.sortBy.getD LeaderboardSortBy.total_wins) limitCap.toNat
          params.minRounds params.startDate params.endDate
          (resolvedLabel.getD ("Store " ++ toString params.storeId))))

/-! ### Per-key views of the aggregation, used to state order-(in)dependence -/

/-- All units of work of the aggregation's double loop, in processing order:
each event's standings paired with their in-event indices, events concatenated. -/
def allContribs (es : List (Event × List StandingEntry)) : List Contrib :=
  es.flatMap (fun p => p.2.enum)

/-- The numeric statistics the aggregation publishes for one player key:
total wins, total losses, events played, best placement, first-place count. -/
def aggStatsAt (es : List (Event × List StandingEntry)) (k : String) :
    Option (Int × Int × Nat × Int × Nat) :=
  (lookupRec (aggMap es) k).map (fun r =>
    (r.wins, r.losses, r.eventsPlayed, listMin r.placements,
      (r.placements.filter (fun p => p = 1)).length))

instance : RightCommutative (min : Int → Int → Int) :=
  ⟨fun b a₁ a₂ => min_right_comm b a₁ a₂⟩

/-! ### Concrete sample data for counterexamples and witnesses -/

/-- A standing entry with every field absent. -/
def blankEntry : StandingEntry :=
  { player := none
    user_event_status := none
    player_name := none
    display_name := none
    username := none
    rank := none
    placement := none
    wins := none
    losses := none
    record := none
    match_record := none }

/-- Player 7 under the handle "Alice": rank 1, record 3-0. -/
def entryAlice : StandingEntry :=
  { blankEntry with
    player := some { id := some 7, best_identifier := some "Alice" }
    rank := some 1
    record := some "3-0" }

/-- The same player 7 under the handle "Alicia": rank 4, record 2-1. -/
def entryAlicia : StandingEntry :=
  { blankEntry with
    player := some { id := some 7, best_identifier := some "Alicia" }
    rank := some 4
    record := some "2-1" }

/-- A sample event shell (the aggregation only reads the standings lists). -/
def eventA : Event :=
  { id := 1
    name := "Event A"
    start_datetime := "2024-03-01T18:00:00Z"
    tournament_phases := []
    store := none }

/-- A second sample event shell. -/
def eventB : Event :=
  { id := 2
    name := "Event B"
    start_datetime := "2024-03-08T18:00:00Z"
    tournament_phases := []
    store := none }

/-- Sample input: player 7 seen first as "Alice" (rank 1, 3-0), then as
"Alicia" (rank 4, 2-1). -/
def esAliceFirst : List (Event × List StandingEntry) :=
  [(eventA, [entryAlice]), (eventB, [entryAlicia])]

/-- The same two event-standings pairs in the opposite order. -/
def esAliciaFirst : List (Event × List StandingEntry) :=
  [(eventB, [entryAlicia]), (eventA, [entryAlice])]

/-- Identified entry (player 3) with neither rank nor placement. -/
def entryRanklessFirst : StandingEntry :=
  { blankEntry with
    player := some { id := some 3, best_identifier := some "Bo" }
    record := some "2-0" }

/-- Identified entry (player 4) with neither rank nor placement. -/
def entryRanklessSecond : StandingEntry :=
  { blankEntry with
    player := some { id := some 4, best_identifier := some "Cy" }
    record := some "1-1" }

/-- City-leaderboard parameters for the zero-events scenario. -/
def sampleCityParams : CityParams :=
  { city := "Detroit, MI"
    startDate := "2024-01-01"
    endDate := "2024-06-30"
    radiusMiles := none
    limit := none
    minEvents := none
    minRounds := none
    sortBy := none }

/-- Store-leaderboard parameters for the zero-events scenario. -/
def sampleStoreParams : StoreParams :=
  { storeId := 42
    storeLabel := none
    startDate := "2024-01-01"
    endDate := "2024-06-30"
    limit := none
    minEvents := none
    minRounds := none
    sortBy := none }

/-- Geocoding oracle that resolves every city to one location. -/
def sampleGeocode : String → Option Geo :=
  fun _ => some { lat := 42, lon := -83, display_name := "Detroit, Wayne County, Michigan" }

/-- Search oracle whose every page is empty. -/
def emptySearch : Nat → Except String SearchPage :=
  fun _ => Except.ok { events := [], total := 0 }

/-- Standings oracle that resolves no event. -/
def noStandings : Int → Option (Event × List StandingEntry) :=
  fun _ => none

/-- The ten-item workload of the runner example: item 5 rejects, every other
item `i` resolves to `10 * i`. -/
def sampleOpTen : Nat → Except Unit Nat :=
  fun i => if i = 5 then Except.error () else Except.ok (10 * i)

/-- The ten items of the runner example. -/
def tenItems : List Nat := [0, 1, 2, 3, 4, 5, 6, 7, 8, 9]

/-! ## Theorems -/

/-! ### C5 — record parsing and the two-event aggregation example -/

/-- C5: parsing `"3-1"` yields wins 3 and losses 1, parsing `""` or a non-numeric
string yields wins 0 and losses 0, and a player appearing in events E1 (rank 1,
record 3-0) and E2 (rank 4, record 2-1) aggregates to totalWins 5, totalLosses 1,
eventsPlayed 2, bestPlacement 1, firstPlaceFinishes 1. -/
theorem record_parsing_and_two_event_aggregation :
    parseRecordToWinsLosses (some "3-1") = (3, 1) ∧
    parseRecordToWinsLosses (some "") = (0, 0) ∧
    parseRecordToWinsLosses (some "abc") = (0, 0) ∧
    parseRecordToWinsLosses (some "a-b") = (0, 0) ∧
    aggregateStandingsToPlayers esAliceFirst 1 LeaderboardSortBy.total_wins 20 =
      [{ playerName := "Alice"
         totalWins := 5
         totalLosses := 1
         eventsPlayed := 2
         bestPlacement := 1
         firstPlaceFinishes := 1
         placements := [1, 4] }] := by
  refine ⟨by decide, by decide, by decide, by decide, by decide⟩

/-! ### C10 — positional fallback placement -/

/-- C10: when a standing entry carries neither a rank nor a placement, its
placement is its zero-based position in the standings list plus 1; consequently,
for an event whose entries all lack rank and placement, best placement and
first-place counts come from list position (the first listed player gets
placement 1 and a first-place finish, the second gets placement 2 and none). -/
theorem positional_placement_fallback :
    (∀ (entry : StandingEntry) (index : Nat), entry.rank = none →
      entry.placement = none → standingPlacement entry index = (index : Int) + 1) ∧
    aggregateStandingsToPlayers
        [(eventA, [entryRanklessFirst, entryRanklessSecond])] 1
        LeaderboardSortBy.total_wins 20 =
      [{ playerName := "Bo"
         totalWins := 2
         totalLosses := 0
         eventsPlayed := 1
         bestPlacement := 1
         firstPlaceFinishes := 1
         placements := [1] },
       { playerName := "Cy"
         totalWins := 1
         totalLosses := 1
         eventsPlayed := 1
         bestPlacement := 2
         firstPlaceFinishes := 0
         placements := [2] }] := by
  constructor
  · intro entry index hrank hplacement
    unfold standingPlacement
    rw [hrank, hplacement]
    rfl
  · decide

/-- C10 witness: the fallback formula applied at a concrete rankless entry. -/
theorem positional_placement_fallback_witness :
    standingPlacement entryRanklessFirst 5 = 6 :=
  positional_placement_fallback.1 entryRanklessFirst 5 rfl rfl

/-! ### C4 — date-range validation -/

/-- C4: `validateDateRange` returns an error value exactly when a date fails to
parse as a valid calendar date, when start is after end, or when the inclusive
day span exceeds 366 days, with the ordering message for the former violation and
the 366-day message for the latter; on valid ranges it passes.  Stated as
equality with `specValidateDateRange`, the direct transcription of those rules. -/
theorem validateDateRange_matches_spec (startDate endDate : String) :
    validateDateRange startDate endDate = specValidateDateRange startDate endDate := by
  unfold validateDateRange specValidateDateRange
  cases parseYMD startDate with
  | none => rfl
  | some s =>
    cases parseYMD endDate with
    | none => rfl
    | some e =>
      simp only [msAtStartOfDay, msAtEndOfDay, roundDivDay,
        MAX_LEADERBOARD_DATE_RANGE_DAYS]
      split_ifs <;> first | rfl | omega

/-! ### C2 — the standings resolver walk -/

/-- `tryRoundsInOrder` is the spec's first-non-empty walk. -/
theorem tryRoundsInOrder_eq_specResolve
    (fetch : Int → Except Unit (List StandingEntry)) (event : Event)
    (rs : List FlatRound) :
    tryRoundsInOrder fetch event rs = specResolveStandings fetch event rs := by
  induction rs with
  | nil => rfl
  | cons r rest ih =>
    simp only [specResolveStandings] at ih ⊢
    rw [List.findSome?_cons]
    unfold tryRoundsInOrder
    cases hfr : fetch r.id with
    | error err =>
      simp only [hfr]
      exact ih
    | ok res =>
      simp only [hfr]
      by_cases hres : res.isEmpty <;> simp [hres, ih]

/-- C2: the resolver walks a list that is a permutation of all rounds flattened
across phases and sorted ascending by (standings priority, phase index descending,
round number descending), fetching page 1 per round, swallowing failures, and
returning `{event, standings}` at the first non-empty page; with no tournament
phases the flattened list is empty and the walk returns `null`. -/
theorem getEventStandings_sorted_walk (event : Event)
    (fetch : Int → Except Unit (List StandingEntry)) :
    ∃ rs : List FlatRound,
      rs.Perm (flattenRounds event.tournament_phases) ∧
      List.Sorted roundLE rs ∧
      getEventStandings event fetch = specResolveStandings fetch event rs := by
  refine ⟨(flattenRounds event.tournament_phases).insertionSort roundLE,
    List.perm_insertionSort roundLE _, List.sorted_insertionSort roundLE _, ?_⟩
  unfold getEventStandings
  by_cases hempty : event.tournament_phases.isEmpty
  · rw [if_pos hempty]
    rw [List.isEmpty_iff] at hempty
    rw [hempty]
    rfl
  · rw [if_neg hempty]
    exact tryRoundsInOrder_eq_specResolve fetch event _

/-! ### C3 — the bounded-concurrency runner -/

/-- Taking one more element after an in-range `set` splits off the written slot. -/
theorem take_succ_set {α : Type} :
    ∀ (l : List α) (i : Nat) (a : α), i < l.length →
      (l.set i a).take (i + 1) = l.take i ++ [a] := by
  intro l
  induction l with
  | nil => intro i a h; simp at h
  | cons x xs ih =>
    intro i a h
    cases i with
    | zero => simp
    | succ j =>
      simp only [List.set_cons_succ, List.take_succ_cons, List.cons_append,
        List.cons.injEq, true_and]
      exact ih j a (by simpa using h)

/-- A worker that starts with no unclaimed index left returns the state unchanged. -/
theorem workerLoop_done {T R : Type} (items : List T) (op : T → Except Unit R)
    (fuel idx : Nat) (res : List (Option R)) (h : ¬ idx < items.length) :
    workerLoop items op fuel idx res = (idx, res) := by
  cases fuel with
  | zero => rfl
  | succ f =>
    unfold workerLoop
    rw [dif_neg h]

/-- A worker with enough fuel fills every slot from its start index onward with
that item's (caught) result and leaves the already-written prefix alone. -/
theorem workerLoop_spec {T R : Type} (items : List T) (op : T → Except Unit R) :
    ∀ (fuel idx : Nat) (res : List (Option R)),
      res.length = items.length → idx ≤ items.length → items.length ≤ idx + fuel →
      workerLoop items op fuel idx res =
        (items.length,
          res.take idx ++ (items.drop idx).map (fun it => (op it).toOption)) := by
  intro fuel
  induction fuel with
  | zero =>
    intro idx res hlen hle hge
    have hidx : idx = items.length := by omega
    rw [workerLoop_done items op 0 idx res (by omega)]
    rw [hidx, List.drop_length, List.map_nil, List.append_nil, ← hlen,
      List.take_length res]
  | succ f ih =>
    intro idx res hlen hle hge
    by_cases h : idx < items.length
    · unfold workerLoop
      rw [dif_pos h]
      rw [ih (idx + 1) _ (by simpa using hlen) (by omega) (by omega)]
      have hset : ∀ r : Option R, (res.set idx r).take (idx + 1) = res.take idx ++ [r] :=
        fun r => take_succ_set res idx r (by omega)
      rw [hset, List.drop_eq_getElem_cons h, List.map_cons, List.append_assoc,
        List.singleton_append]
      rfl
    · rw [workerLoop_done items op (f + 1) idx res h]
      have hidx : idx = items.length := by omega
      rw [hidx, List.drop_length, List.map_nil, List.append_nil, ← hlen,
        List.take_length res]

/-- Workers pooled after all indices are claimed leave the state fixed. -/
theorem foldl_workers_fixed {T R : Type} (items : List T) (op : T → Except Unit R)
    (l : List Nat) (x : List (Option R)) :
    l.foldl (fun st _ => workerLoop items op items.length st.1 st.2)
        (items.length, x) = (items.length, x) := by
  induction l with
  | nil => rfl
  | cons j l' ih =>
    rw [List.foldl_cons]
    rw [workerLoop_done items op items.length items.length x (by omega)]
    exact ih

/-- C3 as amended: for every items list, per-item operation, and width of at
least 1, the runner resolves to an array of the items' length in which index `i`
holds the (caught) result of the operation on `items[i]` — a rejecting item
yields `undefined` at its own index only. -/
theorem runner_indexed_results (T R : Type) (items : List T) (width : Nat)
    (op : T → Except Unit R) (hw : 1 ≤ width) :
    runWithBoundedConcurrency items width op =
      items.map (fun it => (op it).toOption) := by
  unfold runWithBoundedConcurrency
  by_cases hn : items.length = 0
  · rw [List.length_eq_zero] at hn
    subst hn
    simp
  · have hmin : ¬ min width items.length = 0 := by omega
    obtain ⟨j, l', hrange⟩ : ∃ j l', List.range (min width items.length) = j :: l' := by
      cases hr : List.range (min width items.length) with
      | nil => exact absurd (List.range_eq_nil.mp hr) hmin
      | cons j l' => exact ⟨j, l', rfl⟩
    dsimp only
    rw [hrange, List.foldl_cons]
    rw [workerLoop_spec items op items.length 0 (List.replicate items.length none)
      (List.length_replicate _ _) (by omega) (by omega)]
    rw [List.take_zero, List.drop_zero, List.nil_append]
    rw [foldl_workers_fixed]

/-- C3 witness: ten items, width 3, item 5 rejecting — the output has length 10
with `undefined` exactly at index 5. -/
theorem runner_indexed_results_witness :
    1 ≤ 3 ∧
    runWithBoundedConcurrency tenItems 3 sampleOpTen =
      [some 0, some 10, some 20, some 30, some 40, none,
        some 60, some 70, some 80, some 90] :=
  ⟨by decide,
    (runner_indexed_results Nat Nat tenItems 3 sampleOpTen (by decide)).trans (by decide)⟩

/-- C3 counterexample: with width 0 (and one item whose operation succeeds with
42) the pool is empty, the promise still resolves, and the output is `[undefined]`
rather than holding the item's result — so the claim's "for every width" fails. -/
theorem runner_width_zero_counterexample :
    runWithBoundedConcurrency [(0 : Nat)] 0 (fun _ => (Except.ok 42 : Except Unit Nat)) =
        [none] ∧
    [(0 : Nat)].map (fun it =>
        ((fun _ => (Except.ok 42 : Except Unit Nat)) it).toOption) = [some 42] := by
  exact ⟨rfl, rfl⟩

/-! ### Cache lemmas shared by C6, C7, C9 -/

/-- Eviction only ever drops entries. -/
theorem mem_of_mem_evictLoop {T : Type} (m : Nat) :
    ∀ (fuel : Nat) (st : List (CacheEntry T)) (x : CacheEntry T),
      x ∈ evictLoop m fuel st → x ∈ st := by
  intro fuel
  induction fuel with
  | zero => intro st x hx; exact hx
  | succ f ih =>
    intro st x hx
    unfold evictLoop at hx
    split at hx
    · have hx' := ih (evictLru m st) x hx
      unfold evictLru at hx'
      split at hx'
      · exact hx'
      · exact List.mem_of_mem_drop hx'
    · exact hx

/-- Setting a key no live entry carries appends the new entry at the end. -/
theorem mapSet_of_absent {T : Type} (st : List (CacheEntry T)) (k : String)
    (e : CacheEntry T) (h : ∀ x ∈ st, x.key ≠ k) : mapSet st k e = st ++ [e] := by
  unfold mapSet
  rw [if_neg]
  intro hany
  obtain ⟨x, hx, hkey⟩ := List.any_eq_true.mp hany
  exact h x hx (of_decide_eq_true hkey)

/-- `set` of a key absent from the pruned store: sweep, then (when bounded) evict
oldest-first to below capacity, then append the fresh entry. -/
theorem cacheSet_of_new_key {T : Type} (maxSize : Nat) (now : Int) (k : String)
    (v : T) (ttlMs : Int) (st : List (CacheEntry T))
    (hnew : ∀ x ∈ pruneExpired now st, x.key ≠ k) :
    cacheSet maxSize now k v ttlMs st =
      (if 0 < maxSize then evictWhileFull maxSize (pruneExpired now st)
        else pruneExpired now st) ++ [⟨k, v, now + ttlMs⟩] := by
  have hany : (pruneExpired now st).any (fun e => e.key = k) = false := by
    rw [List.any_eq_false]
    intro x hx
    simpa using hnew x hx
  unfold cacheSet
  simp only [hany, Bool.false_eq_true, if_false]
  by_cases hm : 0 < maxSize
  · rw [if_pos hm]
    refine mapSet_of_absent _ _ _ ?_
    intro x hx
    exact hnew x (mem_of_mem_evictLoop maxSize _ _ x hx)
  · rw [if_neg hm]
    exact mapSet_of_absent _ _ _ hnew

/-- `find?` skips a failing prefix and stops at the first success. -/
theorem find?_of_prefix_fails {α : Type} (p : α → Bool) :
    ∀ (pre : List α) (e : α) (suf : List α), (∀ x ∈ pre, p x = false) → p e = true →
      (pre ++ e :: suf).find? p = some e := by
  intro pre
  induction pre with
  | nil =>
    intro e suf _ he
    simp [List.find?_cons, he]
  | cons y ys ih =>
    intro e suf hpre he
    have hy : p y = false := hpre y (List.mem_cons_self y ys)
    simp only [List.cons_append, List.find?_cons, hy]
    exact ih e suf (fun x hx => hpre x (List.mem_cons_of_mem y hx)) he

/-- `eraseP` skips a failing prefix and removes the first success. -/
theorem eraseP_of_prefix_fails {α : Type} (p : α → Bool) :
    ∀ (pre : List α) (e : α) (suf : List α), (∀ x ∈ pre, p x = false) → p e = true →
      (pre ++ e :: suf).eraseP p = pre ++ suf := by
  intro pre
  induction pre with
  | nil =>
    intro e suf _ he
    simp [List.eraseP_cons, he]
  | cons y ys ih =>
    intro e suf hpre he
    have hy : p y = false := hpre y (List.mem_cons_self y ys)
    simp only [List.cons_append, List.eraseP_cons, hy, Bool.false_eq_true, if_false,
      cond_false]
    rw [ih e suf (fun x hx => hpre x (List.mem_cons_of_mem y hx)) he]

/-- In a store with pairwise-distinct keys, a present key splits the store into a
prefix, the unique carrying entry, and a suffix, with the key in neither side. -/
theorem exists_key_split {T : Type} (k : String) :
    ∀ (st : List (CacheEntry T)),
      (∃ x ∈ st, x.key = k) → (st.map (fun e => e.key)).Nodup →
      ∃ pre e0 suf, st = pre ++ e0 :: suf ∧ e0.key = k ∧
        (∀ x ∈ pre, x.key ≠ k) ∧ ∀ x ∈ suf, x.key ≠ k := by
  intro st
  induction st with
  | nil => intro hmem _; simp at hmem
  | cons y ys ih =>
    intro hmem hnodup
    rw [List.map_cons, List.nodup_cons] at hnodup
    by_cases hy : y.key = k
    · refine ⟨[], y, ys, by simp, hy, by simp, ?_⟩
      intro x hx hxk
      exact hnodup.1 (hy ▸ hxk ▸ List.mem_map_of_mem (fun e => e.key) hx)
    · obtain ⟨x, hx, hxk⟩ := hmem
      have hxys : x ∈ ys := by
        cases List.mem_cons.mp hx with
        | inl heq => exact absurd (heq ▸ hxk) hy
        | inr h => exact h
      obtain ⟨pre, e0, suf, hsplit, he0, hpre, hsuf⟩ := ih ⟨x, hxys, hxk⟩ hnodup.2
      refine ⟨y :: pre, e0, suf, by rw [List.cons_append, hsplit], he0, ?_, hsuf⟩
      intro z hz
      cases List.mem_cons.mp hz with
      | inl heq => exact heq ▸ hy
      | inr h => exact hpre z h

/-- Pruning keeps the key list pairwise distinct. -/
theorem nodup_keys_pruneExpired {T : Type} (now : Int) (st : List (CacheEntry T))
    (h : (st.map (fun e => e.key)).Nodup) :
    ((pruneExpired now st).map (fun e => e.key)).Nodup :=
  h.sublist (((List.filter_sublist st).map (fun e => e.key)))

/-- A map over entries that replaces the key's carriers leaves a key-free list
unchanged. -/
theorem map_replace_of_absent {T : Type} (k : String) (e : CacheEntry T) :
    ∀ (l : List (CacheEntry T)), (∀ x ∈ l, x.key ≠ k) →
      l.map (fun x => if x.key = k then e else x) = l := by
  intro l
  induction l with
  | nil => intro _; rfl
  | cons y ys ih =>
    intro h
    rw [List.map_cons, if_neg (h y (List.mem_cons_self y ys)),
      ih (fun x hx => h x (List.mem_cons_of_mem y hx))]

/-- After any `set` under pairwise-distinct keys, the store is a failing prefix,
the freshly written entry, and a failing suffix. -/
theorem cacheSet_split {T : Type} (maxSize : Nat) (now : Int) (k : String) (v : T)
    (ttlMs : Int) (st : List (CacheEntry T))
    (hnodup : (st.map (fun e => e.key)).Nodup) :
    ∃ pre suf,
      cacheSet maxSize now k v ttlMs st =
        pre ++ (⟨k, v, now + ttlMs⟩ : CacheEntry T) :: suf ∧
      (∀ x ∈ pre, x.key ≠ k) ∧ ∀ x ∈ suf, x.key ≠ k := by
  by_cases hnew : ∀ x ∈ pruneExpired now st, x.key ≠ k
  · rw [cacheSet_of_new_key maxSize now k v ttlMs st hnew]
    by_cases hm : 0 < maxSize
    · refine ⟨evictWhileFull maxSize (pruneExpired now st), [],
        by rw [if_pos hm], ?_, by simp⟩
      intro x hx
      exact hnew x (mem_of_mem_evictLoop maxSize _ _ x hx)
    · exact ⟨pruneExpired now st, [], by rw [if_neg hm], hnew, by simp⟩
  · push_neg at hnew
    obtain ⟨x0, hx0, hx0k⟩ := hnew
    have h1 : ((pruneExpired now st).map (fun e => e.key)).Nodup :=
      nodup_keys_pruneExpired now st hnodup
    obtain ⟨pre, e0, suf, hsplit, he0, hpre, hsuf⟩ :=
      exists_key_split k (pruneExpired now st) ⟨x0, hx0, hx0k⟩ h1
    have hany : (pruneExpired now st).any (fun e => e.key = k) = true :=
      List.any_eq_true.mpr ⟨x0, hx0, decide_eq_true hx0k⟩
    unfold cacheSet
    simp only [hany, if_true]
    by_cases hm : 0 < maxSize
    · rw [if_pos hm]
      have herase : mapDelete (pruneExpired now st) k = pre ++ suf := by
        unfold mapDelete
        rw [hsplit]
        refine eraseP_of_prefix_fails _ pre e0 suf ?_ (decide_eq_true he0)
        intro x hx
        exact decide_eq_false (hpre x hx)
      rw [herase]
      have habsent : ∀ x ∈ pre ++ suf, x.key ≠ k := by
        intro x hx
        cases List.mem_append.mp hx with
        | inl h => exact hpre x h
        | inr h => exact hsuf x h
      rw [mapSet_of_absent (pre ++ suf) k _ habsent]
      exact ⟨pre ++ suf, [], by rw [List.append_assoc], habsent, by simp⟩
    · rw [if_neg hm, hsplit]
      unfold mapSet
      rw [if_pos (by rw [← hsplit]; exact hany)]
      refine ⟨pre, suf, ?_, hpre, hsuf⟩
      rw [List.map_append, List.map_cons, if_pos he0,
        map_replace_of_absent k _ pre hpre, map_replace_of_absent k _ suf hsuf]

/-! ### C6 — sweep-then-evict on `set`, LRU scenarios -/

/-- C6: `set` of a new key into a bounded cache first sweeps expired entries and
then evicts oldest-first until the size is below the maximum before appending;
with `maxSize = 2`, three fresh inserts evict exactly the earliest-inserted key,
and a `get` on a live key refreshes its recency so the next insert evicts the
other key instead. -/
theorem set_new_key_sweeps_then_evicts :
    (∀ (T : Type) (maxSize : Nat) (now : Int) (k : String) (v : T) (ttlMs : Int)
      (st : List (CacheEntry T)), 0 < maxSize →
      (∀ x ∈ pruneExpired now st, x.key ≠ k) →
      cacheSet maxSize now k v ttlMs st =
        evictWhileFull maxSize (pruneExpired now st) ++ [⟨k, v, now + ttlMs⟩]) ∧
    (runCacheOps 2 [CacheOp.set 0 "a" (1 : Nat) 1000, CacheOp.set 0 "b" 2 1000,
      CacheOp.set 0 "c" 3 1000]).map (fun e => e.key) = ["b", "c"] ∧
    (runCacheOps 2 [CacheOp.set 0 "a" (1 : Nat) 1000, CacheOp.set 0 "b" 2 1000,
      CacheOp.get 0 "a", CacheOp.set 0 "c" 3 1000]).map (fun e => e.key) =
      ["a", "c"] := by
  refine ⟨?_, by decide, by decide⟩
  intro T maxSize now k v ttlMs st hm hnew
  rw [cacheSet_of_new_key maxSize now k v ttlMs st hnew, if_pos hm]

/-- C6 witness: the sweep-then-evict equation at a concrete full cache, whose
right-hand side evaluates to the eviction of the oldest key. -/
theorem set_new_key_sweeps_then_evicts_witness :
    cacheSet 2 0 "c" (3 : Nat) 1000 [⟨"a", 1, 1000⟩, ⟨"b", 2, 1000⟩] =
      evictWhileFull 2 (pruneExpired 0 [⟨"a", 1, 1000⟩, ⟨"b", 2, 1000⟩]) ++
        [⟨"c", 3, 1000⟩] ∧
    cacheSet 2 0 "c" (3 : Nat) 1000 [⟨"a", 1, 1000⟩, ⟨"b", 2, 1000⟩] =
      [⟨"b", 2, 1000⟩, ⟨"c", 3, 1000⟩] :=
  ⟨set_new_key_sweeps_then_evicts.1 Nat 2 0 "c" 3 1000 _ (by decide) (by decide),
    by decide⟩

/-! ### C7 — TTL contract of `set` then `get` -/

/-- C7: after `set(k, v, ttlMs)` at time `now` on a store with pairwise-distinct
keys, a `get(k)` before the expiry instant returns `v`, and a `get(k)` after the
expiry instant returns absent and leaves no entry for `k` in the store. -/
theorem get_after_set_respects_ttl (T : Type) (maxSize : Nat)
    (now t1 t2 ttlMs : Int) (k : String) (v : T) (st : List (CacheEntry T))
    (hnodup : (st.map (fun e => e.key)).Nodup) :
    (t1 < now + ttlMs →
      (cacheGet maxSize t1 k (cacheSet maxSize now k v ttlMs st)).1 = some v) ∧
    (now + ttlMs < t2 →
      (cacheGet maxSize t2 k (cacheSet maxSize now k v ttlMs st)).1 = none ∧
      ∀ x ∈ (cacheGet maxSize t2 k (cacheSet maxSize now k v ttlMs st)).2,
        x.key ≠ k) := by
  obtain ⟨pre, suf, hsplit, hpre, hsuf⟩ := cacheSet_split maxSize now k v ttlMs st hnodup
  have hfind : (cacheSet maxSize now k v ttlMs st).find? (fun e => e.key = k) =
      some ⟨k, v, now + ttlMs⟩ := by
    rw [hsplit]
    exact find?_of_prefix_fails _ pre _ suf
      (fun x hx => decide_eq_false (hpre x hx)) (decide_eq_true rfl)
  constructor
  · intro ht
    unfold cacheGet
    simp only [hfind]
    rw [if_neg (show ¬ t1 > (⟨k, v, now + ttlMs⟩ : CacheEntry T).expiresAt by
      simp only []; omega)]
    by_cases hm : 0 < maxSize
    · rw [if_pos hm]
    · rw [if_neg hm]
  · intro ht
    have hdel : mapDelete (cacheSet maxSize now k v ttlMs st) k = pre ++ suf := by
      unfold mapDelete
      rw [hsplit]
      exact eraseP_of_prefix_fails _ pre _ suf
        (fun x hx => decide_eq_false (hpre x hx)) (decide_eq_true rfl)
    unfold cacheGet
    simp only [hfind]
    rw [if_pos (show t2 > (⟨k, v, now + ttlMs⟩ : CacheEntry T).expiresAt by
      simp only []; omega)]
    refine ⟨rfl, ?_⟩
    intro x hx
    rw [hdel] at hx
    cases List.mem_append.mp hx with
    | inl h => exact hpre x h
    | inr h => exact hsuf x h

/-- C7 witness: set with a 50ms TTL at time 0 in an empty unbounded cache; a get
at time 0 returns the value, a get at time 60 returns absent. -/
theorem get_after_set_respects_ttl_witness :
    (cacheGet 0 0 "k" (cacheSet 0 0 "k" (7 : Nat) 50 [])).1 = some 7 ∧
    (cacheGet 0 60 "k" (cacheSet 0 0 "k" (7 : Nat) 50 [])).1 = none :=
  ⟨(get_after_set_respects_ttl Nat 0 0 0 60 50 "k" 7 [] (by decide)).1 (by decide),
    ((get_after_set_respects_ttl Nat 0 0 0 60 50 "k" 7 [] (by decide)).2
      (by decide)).1⟩

/-! ### C9 — the size bound invariant -/

/-- The eviction loop, given fuel covering the store, ends strictly below capacity. -/
theorem length_evictLoop_lt {T : Type} (m : Nat) (hm : 0 < m) :
    ∀ (fuel : Nat) (st : List (CacheEntry T)), st.length ≤ fuel →
      (evictLoop m fuel st).length < m := by
  intro fuel
  induction fuel with
  | zero =>
    intro st h
    have : st.length = 0 := by omega
    unfold evictLoop
    omega
  | succ f ih =>
    intro st h
    unfold evictLoop
    split
    · rename_i hcond
      have hlru : (evictLru m st).length = st.length - 1 := by
        unfold evictLru
        rw [if_neg (by omega)]
        simp [List.length_drop]
      exact ih _ (by omega)
    · rename_i hcond
      omega

/-- A `Map.set` grows the store by at most one entry. -/
theorem length_mapSet_le {T : Type} (st : List (CacheEntry T)) (k : String)
    (e : CacheEntry T) : (mapSet st k e).length ≤ st.length + 1 := by
  unfold mapSet
  split
  · simp
  · simp

/-- A `get` never grows the store. -/
theorem length_cacheGet_le {T : Type} (m : Nat) (now : Int) (k : String)
    (st : List (CacheEntry T)) : ((cacheGet m now k st).2).length ≤ st.length := by
  unfold cacheGet
  cases hf : st.find? (fun e => e.key = k) with
  | none => exact Nat.le_refl _
  | some e =>
    have hmem : e ∈ st := List.mem_of_find?_eq_some hf
    have hpos : 1 ≤ st.length := List.length_pos.mpr (List.ne_nil_of_mem hmem)
    have hdel : (mapDelete st k).length = st.length - 1 := by
      unfold mapDelete
      exact List.length_eraseP_of_mem hmem (by simpa using List.find?_some hf)
    simp only [hf]
    split_ifs
    · simp only [hdel]
      omega
    · simp only [List.length_append, hdel, List.length_singleton]
      omega
    · exact Nat.le_refl _

/-- A `set` into a bounded cache within its bound stays within the bound. -/
theorem length_cacheSet_le {T : Type} (m : Nat) (now : Int) (k : String) (v : T)
    (ttlMs : Int) (st : List (CacheEntry T)) (hm : 0 < m) (h : st.length ≤ m) :
    (cacheSet m now k v ttlMs st).length ≤ m := by
  have hprune : (pruneExpired now st).length ≤ st.length :=
    List.length_filter_le _ _
  simp only [cacheSet, if_pos hm]
  split
  · rename_i hany
    obtain ⟨x, hx, hxk⟩ := List.any_eq_true.mp hany
    have hdel : (mapDelete (pruneExpired now st) k).length =
        (pruneExpired now st).length - 1 := by
      unfold mapDelete
      exact List.length_eraseP_of_mem hx hxk
    have hpos : 1 ≤ (pruneExpired now st).length :=
      List.length_pos.mpr (List.ne_nil_of_mem hx)
    have := length_mapSet_le (mapDelete (pruneExpired now st) k) k
      (⟨k, v, now + ttlMs⟩ : CacheEntry T)
    omega
  · have hevict : (evictWhileFull m (pruneExpired now st)).length < m :=
      length_evictLoop_lt m hm _ _ (Nat.le_refl _)
    have := length_mapSet_le (evictWhileFull m (pruneExpired now st)) k
      (⟨k, v, now + ttlMs⟩ : CacheEntry T)
    omega

/-- C9: for a cache created with a positive maximum size, no sequence of `get`
and `set` operations ever leaves more than `maxSize` stored entries. -/
theorem cache_size_never_exceeds_max (T : Type) (maxSize : Nat)
    (hm : 0 < maxSize) (ops : List (CacheOp T)) :
    (runCacheOps maxSize ops).length ≤ maxSize := by
  have main : ∀ (l : List (CacheOp T)) (st : List (CacheEntry T)),
      st.length ≤ maxSize →
      (l.foldl
        (fun st op =>
          match op with
          | CacheOp.get now k => (cacheGet maxSize now k st).2
          | CacheOp.set now k v ttl => cacheSet maxSize now k v ttl st)
        st).length ≤ maxSize := by
    intro l
    induction l with
    | nil => intro st h; exact h
    | cons op rest ih =>
      intro st h
      rw [List.foldl_cons]
      cases op with
      | get now k => exact ih _ (Nat.le_trans (length_cacheGet_le maxSize now k st) h)
      | set now k v ttl => exact ih _ (length_cacheSet_le maxSize now k v ttl st hm h)
  exact main ops [] (Nat.zero_le maxSize)

/-- C9 witness: three inserts into a 2-bounded cache leave exactly 2 entries. -/
theorem cache_size_never_exceeds_max_witness :
    (runCacheOps 2 [CacheOp.set 0 "a" (1 : Nat) 1000, CacheOp.set 0 "b" 2 1000,
      CacheOp.set 0 "c" 3 1000]).length ≤ 2 ∧
    (runCacheOps 2 [CacheOp.set 0 "a" (1 : Nat) 1000, CacheOp.set 0 "b" 2 1000,
      CacheOp.set 0 "c" 3 1000]).length = 2 :=
  ⟨cache_size_never_exceeds_max Nat 2 (by decide) _, by decide⟩

/-! ### C8 — zero discovered events yield a descriptive error -/

/-- C8: when validation passes and event discovery completes with zero matching
events, both leaderboard entry points return the descriptive no-events error —
never a success payload — so "no events in range" stays distinguishable from a
leaderboard with zero qualifying players. -/
theorem zero_events_is_error (cp : CityParams) (sp : StoreParams)
    (geocode : String → Option Geo)
    (searchC searchS : Nat → Except String SearchPage)
    (standingsC standingsS : Int → Option (Event × List StandingEntry))
    (fuelC fuelS : Nat) (g : Geo) (lbl : Option String)
    (hvc : validateDateRange cp.startDate cp.endDate = none)
    (hg : geocode cp.city = some g)
    (hc : collectEventsCity searchC fuelC 1 [] = some (Except.ok []))
    (hvs : validateDateRange sp.startDate sp.endDate = none)
    (hs : collectEventsStore searchS fuelS 1 [] sp.storeLabel =
      some (Except.ok ([], lbl))) :
    getPlayerLeaderboardByCity cp geocode searchC standingsC fuelC =
      some (Except.error ("No past or in-progress events found near " ++
        g.display_name ++ " for " ++ cp.startDate ++ " – " ++ cp.endDate ++
        ". Try a larger radius or different dates.")) ∧
    getPlayerLeaderboardByStore sp searchS standingsS fuelS =
      some (Except.error ("No past or in-progress events found at store " ++
        toString sp.storeId ++ " for " ++ sp.startDate ++ " – " ++ sp.endDate ++
        ". Try different dates.")) := by
  constructor
  · unfold getPlayerLeaderboardByCity
    simp only [hvc, hg, hc, List.isEmpty_nil, if_true]
  · unfold getPlayerLeaderboardByStore
    simp only [hvs, hs, List.isEmpty_nil, if_true]

/-- C8 witness: a search oracle whose pages are all empty drives both entry
points into their no-events error messages. -/
theorem zero_events_is_error_witness :
    getPlayerLeaderboardByCity sampleCityParams sampleGeocode emptySearch
        noStandings 1 =
      some (Except.error
        "No past or in-progress events found near Detroit, Wayne County, Michigan for 2024-01-01 – 2024-06-30. Try a larger radius or different dates.") ∧
    getPlayerLeaderboardByStore sampleStoreParams emptySearch noStandings 1 =
      some (Except.error
        "No past or in-progress events found at store 42 for 2024-01-01 – 2024-06-30. Try different dates.") := by
  have h := zero_events_is_error sampleCityParams sampleStoreParams sampleGeocode
    emptySearch emptySearch noStandings noStandings 1 1
    { lat := 42, lon := -83, display_name := "Detroit, Wayne County, Michigan" }
    none (by decide) (by decide) (by decide) (by decide) (by decide)
  exact ⟨h.1.trans (by decide), h.2.trans (by decide)⟩

/-! ### C1 — order (in)dependence of the aggregation -/

/-- Appending a record under a different key does not change a lookup. -/
theorem lookupRec_append_other (k k' : String) (r : AggRec) (h : k' ≠ k) :
    ∀ m : List (String × AggRec), lookupRec (m ++ [(k', r)]) k = lookupRec m k := by
  intro m
  unfold lookupRec
  induction m with
  | nil => simp [List.find?_cons, h]
  | cons a m ih =>
    by_cases ha : a.1 = k
    · simp [List.find?_cons, ha]
    · simpa [List.find?_cons, ha] using ih

/-- Appending a record under an absent key makes the lookup find it. -/
theorem lookupRec_append_self (k : String) (r : AggRec) :
    ∀ m : List (String × AggRec), lookupRec m k = none →
      lookupRec (m ++ [(k, r)]) k = some r := by
  intro m
  unfold lookupRec
  induction m with
  | nil => intro _; simp [List.find?_cons]
  | cons a m ih =>
    intro h
    by_cases ha : a.1 = k
    · simp [List.find?_cons, ha] at h
    · simp only [List.find?_cons, ha] at h ⊢
      simpa [List.find?_cons, ha] using ih (by simpa [List.find?_cons, ha] using h)

/-- Replacing under a different key does not change a lookup. -/
theorem lookupRec_replace_other (k k' : String) (r : AggRec) (h : k' ≠ k) :
    ∀ m : List (String × AggRec), lookupRec (replaceRec m k' r) k = lookupRec m k := by
  intro m
  unfold lookupRec replaceRec
  induction m with
  | nil => rfl
  | cons a m ih =>
    by_cases ha : a.1 = k'
    · have hak : ¬ a.1 = k := fun hk => h (ha ▸ hk)
      simp only [List.map_cons, if_pos ha, List.find?_cons]
      simpa [h, hak] using ih
    · simp only [List.map_cons, if_neg ha, List.find?_cons]
      by_cases hak : a.1 = k
      · simp [hak]
      · simpa [hak] using ih

/-- Replacing under a present key makes the lookup yield the replacement. -/
theorem lookupRec_replace_self (k : String) (r : AggRec) :
    ∀ m : List (String × AggRec), (lookupRec m k).isSome →
      lookupRec (replaceRec m k r) k = some r := by
  intro m
  unfold lookupRec replaceRec
  induction m with
  | nil => intro h; simp at h
  | cons a m ih =>
    intro h
    by_cases ha : a.1 = k
    · simp [List.find?_cons, ha]
    · simp only [List.map_cons, if_neg ha, List.find?_cons, ha]
      simp only [List.find?_cons, ha] at h
      simpa [ha] using ih (by simpa [ha] using h)

/-- One aggregation step, seen through a single key's lookup: the matching key is
bumped, every other key is untouched, sentinel contributions are skipped. -/
theorem lookupRec_aggStep (m : List (String × AggRec)) (c : Contrib) (k : String)
    (hk : k ≠ "—") :
    lookupRec (aggStep m c) k =
      if standingPlayerKey c.2 = k then some (bumpRec (lookupRec m k) c)
      else lookupRec m k := by
  unfold aggStep
  by_cases hbot : standingPlayerKey c.2 = "—"
  · rw [if_pos hbot, if_neg (show ¬ standingPlayerKey c.2 = k from
      fun hkey => hk (hkey ▸ hbot))]
  · rw [if_neg hbot]
    by_cases hkey : standingPlayerKey c.2 = k
    · rw [if_pos hkey]
      cases hl : lookupRec m (standingPlayerKey c.2) with
      | none =>
        simp only [hl]
        rw [hkey] at hl ⊢
        rw [lookupRec_append_self k _ m hl, hl]
      | some r =>
        simp only [hl]
        rw [hkey] at hl ⊢
        rw [lookupRec_replace_self k _ m (by rw [hl]; rfl), hl]
    · rw [if_neg hkey]
      cases hl : lookupRec m (standingPlayerKey c.2) with
      | none =>
        simp only [hl]
        exact lookupRec_append_other k _ _ hkey m
      | some r =>
        simp only [hl]
        exact lookupRec_replace_other k _ _ hkey m

/-- The aggregation loop, seen through a single key's lookup, is the fold of the
bumps of exactly that key's contributions, in processing order. -/
theorem lookupRec_foldl_aggStep (k : String) (hk : k ≠ "—") :
    ∀ (L : List Contrib) (m : List (String × AggRec)),
      lookupRec (L.foldl aggStep m) k =
        (L.filter (fun c => standingPlayerKey c.2 = k)).foldl
          (fun a c => some (bumpRec a c)) (lookupRec m k) := by
  intro L
  induction L with
  | nil => intro m; rfl
  | cons c L ih =>
    intro m
    rw [List.foldl_cons, ih (aggStep m c), lookupRec_aggStep m c k hk]
    by_cases hkey : standingPlayerKey c.2 = k
    · have hfc : List.filter (fun c => decide (standingPlayerKey c.2 = k)) (c :: L) =
          c :: List.filter (fun c => decide (standingPlayerKey c.2 = k)) L := by
        simp [List.filter_cons, hkey]
      rw [if_pos hkey, hfc, List.foldl_cons]
    · have hfc : List.filter (fun c => decide (standingPlayerKey c.2 = k)) (c :: L) =
          List.filter (fun c => decide (standingPlayerKey c.2 = k)) L := by
        simp [List.filter_cons, hkey]
      rw [if_neg hkey, hfc]

/-- The two nested aggregation loops equal one fold over the flattened
contribution stream. -/
theorem aggMap_eq_foldl (es : List (Event × List StandingEntry)) :
    aggMap es = (allContribs es).foldl aggStep [] := by
  suffices h : ∀ (l : List (Event × List StandingEntry)) (m : List (String × AggRec)),
      l.foldl (fun m p => p.2.enum.foldl aggStep m) m =
        (allContribs l).foldl aggStep m by
    exact h es []
  intro l
  induction l with
  | nil => intro m; rfl
  | cons p l ih =>
    intro m
    rw [List.foldl_cons, ih]
    unfold allContribs
    rw [List.flatMap_cons, List.foldl_append]

/-- The `"—"` sentinel never owns an aggregation record. -/
theorem lookupRec_aggMap_bot (es : List (Event × List StandingEntry)) :
    lookupRec (aggMap es) "—" = none := by
  rw [aggMap_eq_foldl]
  suffices h : ∀ (L : List Contrib) (m : List (String × AggRec)),
      lookupRec m "—" = none → lookupRec (L.foldl aggStep m) "—" = none by
    exact h _ [] rfl
  intro L
  induction L with
  | nil => intro m h; exact h
  | cons c L ih =>
    intro m h
    rw [List.foldl_cons]
    refine ih (aggStep m c) ?_
    unfold aggStep
    by_cases hbot : standingPlayerKey c.2 = "—"
    · rw [if_pos hbot]; exact h
    · rw [if_neg hbot]
      cases hl : lookupRec m (standingPlayerKey c.2) with
      | none => rw [lookupRec_append_other _ _ _ hbot m]; exact h
      | some r => rw [lookupRec_replace_other _ _ _ hbot m]; exact h

/-- A bump of an existing record leaves the name logic aside and accumulates the
numeric fields. -/
theorem bumpRec_some_fields (r : AggRec) (c : Contrib) :
    (bumpRec (some r) c).wins = r.wins + contribW c ∧
    (bumpRec (some r) c).losses = r.losses + contribL c ∧
    (bumpRec (some r) c).eventsPlayed = r.eventsPlayed + 1 ∧
    (bumpRec (some r) c).placements = r.placements ++ [contribPl c] := by
  simp only [bumpRec, accumRec]
  split <;> exact ⟨rfl, rfl, rfl, rfl⟩

/-- Closed formulas for the numeric fields of a fold of bumps over an existing
record. -/
theorem bumpFoldl_stats :
    ∀ (cs : List Contrib) (r : AggRec),
      ∃ r', cs.foldl (fun a c => some (bumpRec a c)) (some r) = some r' ∧
        r'.wins = r.wins + (cs.map contribW).sum ∧
        r'.losses = r.losses + (cs.map contribL).sum ∧
        r'.eventsPlayed = r.eventsPlayed + cs.length ∧
        r'.placements = r.placements ++ cs.map contribPl := by
  intro cs
  induction cs with
  | nil => intro r; exact ⟨r, rfl, by simp, by simp, by simp, by simp⟩
  | cons c cs ih =>
    intro r
    obtain ⟨r', hfold, hw, hl, he, hp⟩ := ih (bumpRec (some r) c)
    obtain ⟨bw, bl, be, bp⟩ := bumpRec_some_fields r c
    refine ⟨r', by rw [List.foldl_cons]; exact hfold, ?_, ?_, ?_, ?_⟩
    · rw [hw, bw, List.map_cons, List.sum_cons]; omega
    · rw [hl, bl, List.map_cons, List.sum_cons]; omega
    · rw [he, be, List.length_cons]; omega
    · rw [hp, bp, List.map_cons, List.append_assoc, List.singleton_append]

/-- Closed formulas for the numeric fields of the record built from a non-empty
contribution list. -/
theorem bumpFoldl_none_stats (c : Contrib) (cs : List Contrib) :
    ∃ r', (c :: cs).foldl (fun a c => some (bumpRec a c)) none = some r' ∧
      r'.wins = ((c :: cs).map contribW).sum ∧
      r'.losses = ((c :: cs).map contribL).sum ∧
      r'.eventsPlayed = (c :: cs).length ∧
      r'.placements = (c :: cs).map contribPl := by
  have hW : (bumpRec none c).wins = contribW c := by unfold bumpRec accumRec; simp
  have hL : (bumpRec none c).losses = contribL c := by unfold bumpRec accumRec; simp
  have hE : (bumpRec none c).eventsPlayed = 1 := by unfold bumpRec accumRec; simp
  have hP : (bumpRec none c).placements = [contribPl c] := by
    unfold bumpRec accumRec; simp
  obtain ⟨r', hfold, hw, hl, he, hp⟩ := bumpFoldl_stats cs (bumpRec none c)
  refine ⟨r', by rw [List.foldl_cons]; exact hfold, ?_, ?_, ?_, ?_⟩
  · rw [hw, hW, List.map_cons, List.sum_cons]
  · rw [hl, hL, List.map_cons, List.sum_cons]
  · rw [he, hE, List.length_cons]; omega
  · rw [hp, hP, List.map_cons, List.singleton_append]

/-- The minimum of a list is invariant under permutation. -/
theorem listMin_perm : ∀ {l₁ l₂ : List Int}, l₁.Perm l₂ → listMin l₁ = listMin l₂ := by
  intro l₁ l₂ h
  induction h with
  | nil => rfl
  | cons x h ih =>
    show List.foldl min x _ = List.foldl min x _
    exact h.foldl_eq x
  | swap x y l =>
    show (x :: l).foldl min y = (y :: l).foldl min x
    rw [List.foldl_cons, List.foldl_cons, min_comm y x]
  | trans h₁ h₂ ih₁ ih₂ => exact ih₁.trans ih₂

/-- C1 as amended: permuting the event-standings list leaves every player key's
aggregated numeric statistics — total wins, total losses, events played, best
placement, first-place finishes — unchanged (display names and the relative
order of tied players may still depend on the input order). -/
theorem agg_numeric_stats_order_independent
    (es es' : List (Event × List StandingEntry)) (hperm : es.Perm es')
    (k : String) : aggStatsAt es k = aggStatsAt es' k := by
  by_cases hk : k = "—"
  · subst hk
    unfold aggStatsAt
    rw [lookupRec_aggMap_bot, lookupRec_aggMap_bot]
  · have hfil : ((allContribs es).filter (fun c => standingPlayerKey c.2 = k)).Perm
        ((allContribs es').filter (fun c => standingPlayerKey c.2 = k)) :=
      (hperm.flatMap_right _).filter _
    unfold aggStatsAt
    rw [aggMap_eq_foldl, aggMap_eq_foldl, lookupRec_foldl_aggStep k hk,
      lookupRec_foldl_aggStep k hk]
    have hnil : lookupRec ([] : List (String × AggRec)) k = none := rfl
    rw [hnil]
    cases hcs : (allContribs es).filter (fun c => standingPlayerKey c.2 = k) with
    | nil =>
      have hcs' : (allContribs es').filter (fun c => standingPlayerKey c.2 = k) = [] :=
        ((hcs ▸ hfil).symm).eq_nil
      rw [hcs']
    | cons c cs =>
      cases hcs' : (allContribs es').filter (fun c => standingPlayerKey c.2 = k) with
      | nil =>
        exact absurd (hcs' ▸ hcs ▸ hfil).eq_nil (List.cons_ne_nil c cs)
      | cons c' cs' =>
        have hl : (c :: cs).Perm (c' :: cs') := hcs ▸ hcs' ▸ hfil
        obtain ⟨r1, hf1, hw1, hlo1, he1, hp1⟩ := bumpFoldl_none_stats c cs
        obtain ⟨r2, hf2, hw2, hlo2, he2, hp2⟩ := bumpFoldl_none_stats c' cs'
        rw [hf1, hf2, Option.map_some', Option.map_some']
        have hplperm : (r1.placements).Perm (r2.placements) := by
          rw [hp1, hp2]; exact hl.map _
        refine congrArg some ?_
        have e1 : r1.wins = r2.wins := by
          rw [hw1, hw2]; exact (hl.map _).sum_eq
        have e2 : r1.losses = r2.losses := by
          rw [hlo1, hlo2]; exact (hl.map _).sum_eq
        have e3 : r1.eventsPlayed = r2.eventsPlayed := by
          rw [he1, he2]; exact hl.length_eq
        have e4 : listMin r1.placements = listMin r2.placements :=
          listMin_perm hplperm
        have e5 : (r1.placements.filter (fun p => p = 1)).length =
            (r2.placements.filter (fun p => p = 1)).length :=
          (hplperm.filter _).length_eq
        rw [e1, e2, e3, e4, e5]

/-- C1 amended-claim witness: the two orders of the Alice/Alicia sample input are
a permutation of one another and carry identical numeric statistics for
player 7. -/
theorem agg_numeric_stats_order_independent_witness :
    aggStatsAt esAliceFirst "player_id:7" = aggStatsAt esAliciaFirst "player_id:7" ∧
    aggStatsAt esAliceFirst "player_id:7" = some (5, 1, 2, 1, 1) :=
  ⟨agg_numeric_stats_order_independent esAliceFirst esAliciaFirst (by decide)
      "player_id:7",
    by decide⟩

/-- C1 counterexample: the two orders of the Alice/Alicia sample input are
permutations of one another, yet aggregation yields different player lists (the
recorded display name differs), refuting order-independence of the full list. -/
theorem agg_full_list_not_order_independent :
    esAliceFirst.Perm esAliciaFirst ∧
    aggregateStandingsToPlayers esAliceFirst 1 LeaderboardSortBy.total_wins 20 ≠
      aggregateStandingsToPlayers esAliciaFirst 1 LeaderboardSortBy.total_wins 20 := by
  exact ⟨by decide, by decide⟩

end Playhub
